import Mathlib

/-!
Verification development for the terminal-input-debug repository.

Shallow embedding of the incremental segmenter and semantic decoder of
`src/main.rs` (functions `try_extract_event`, `csi_sequence_length`,
`utf8_char_width`, `interpret_bytes` and its five interpreters,
`parse_csi`, `split_params_and_modifiers`, `decode_modifier_code`,
`GuessInfo::from_bytes`, `RawInputReader::{push_byte, poll_next,
should_flush_pending}`) and of the tokenizer of `src/debug_rust_only.rs`
(functions `parse_next`, `gather_ansi`, `map_csi`, `map_ss3`).

Bytes are modelled as `Nat` (with values below 256 on real inputs),
strings of the Rust code as lists of Unicode code points (`List Nat`),
and `u16`/`i32` parsing with the explicit range checks the Rust integer
parsers perform.
-/

namespace TermInput

/-- Modifier set, modelling crossterm `KeyModifiers` restricted to the
three bits the repository uses (SHIFT, CONTROL, ALT). -/
structure KeyModifiers where
  shift : Bool
  control : Bool
  alt : Bool
deriving DecidableEq

def KeyModifiers.empty : KeyModifiers := ⟨false, false, false⟩

instance : EmptyCollection KeyModifiers := ⟨KeyModifiers.empty⟩

/-- Key identity, modelling the subset of crossterm `KeyCode` the
repository produces.  `Char` carries the Unicode scalar value. -/
inductive KeyCode where
  | Null
  | Enter
  | Tab
  | Backspace
  | Esc
  | Char (c : Nat)
  | Up
  | Down
  | Left
  | Right
  | Home
  | End
  | PageUp
  | PageDown
  | Insert
  | Delete
  | BackTab
  | F (n : Nat)
deriving DecidableEq

/-- Result of one interpretation, modelling `KeyInterpretation` of
`src/main.rs` (`key_display`, `code`, `modifiers`, `description`). -/
structure KeyInterpretation where
  key_display : String
  code : KeyCode
  modifiers : KeyModifiers
  description : String
deriving DecidableEq

/-- `utf8_char_width` of `src/main.rs`: sequence width from the high
bits of the lead byte. -/
def utf8_char_width (first_byte : Nat) : Nat :=
  if first_byte < 0x80 then 1
  else if first_byte >>> 5 = 0b110 then 2
  else if first_byte >>> 4 = 0b1110 then 3
  else if first_byte >>> 3 = 0b11110 then 4
  else 1

/-- Whether a byte is a UTF-8 continuation byte (`0x80..=0xBF`). -/
def isCont (b : Nat) : Bool := 0x80 ≤ b ∧ b ≤ 0xBF

/-- Decode a byte list that is exactly one UTF-8 encoded character,
following the validity rules `std::str::from_utf8` enforces (continuation
ranges, no overlong forms, no surrogates, max U+10FFFF). -/
def utf8_decode_char (bytes : List Nat) : Option Nat :=
  match bytes with
  | [b] => if b < 0x80 then some b else none
  | [b1, b2] =>
      if 0xC2 ≤ b1 ∧ b1 ≤ 0xDF ∧ isCont b2 then
        some ((b1 - 0xC0) * 64 + (b2 - 0x80))
      else none
  | [b1, b2, b3] =>
      if ((b1 = 0xE0 ∧ 0xA0 ≤ b2 ∧ b2 ≤ 0xBF) ∨
          (0xE1 ≤ b1 ∧ b1 ≤ 0xEC ∧ isCont b2) ∨
          (b1 = 0xED ∧ 0x80 ≤ b2 ∧ b2 ≤ 0x9F) ∨
          (0xEE ≤ b1 ∧ b1 ≤ 0xEF ∧ isCont b2)) ∧ isCont b3 then
        some ((b1 - 0xE0) * 4096 + (b2 - 0x80) * 64 + (b3 - 0x80))
      else none
  | [b1, b2, b3, b4] =>
      if ((b1 = 0xF0 ∧ 0x90 ≤ b2 ∧ b2 ≤ 0xBF) ∨
          (0xF1 ≤ b1 ∧ b1 ≤ 0xF3 ∧ isCont b2) ∨
          (b1 = 0xF4 ∧ 0x80 ≤ b2 ∧ b2 ≤ 0x8F)) ∧ isCont b3 ∧ isCont b4 then
        some ((b1 - 0xF0) * 262144 + (b2 - 0x80) * 4096 +
              (b3 - 0x80) * 64 + (b4 - 0x80))
      else none
  | _ => none

/-- Decode a whole byte list as UTF-8 into its code points, modelling a
successful `std::str::from_utf8` followed by `chars()`. -/
def utf8_decode : List Nat → Option (List Nat)
  | [] => some []
  | b :: rest =>
    if b < 0x80 then (utf8_decode rest).map (b :: ·)
    else if 0xC2 ≤ b ∧ b ≤ 0xDF then
      match rest with
      | b2 :: rest2 =>
          match utf8_decode_char [b, b2] with
          | some cp => (utf8_decode rest2).map (cp :: ·)
          | none => none
      | [] => none
    else if 0xE0 ≤ b ∧ b ≤ 0xEF then
      match rest with
      | b2 :: b3 :: rest3 =>
          match utf8_decode_char [b, b2, b3] with
          | some cp => (utf8_decode rest3).map (cp :: ·)
          | none => none
      | _ => none
    else if 0xF0 ≤ b ∧ b ≤ 0xF4 then
      match rest with
      | b2 :: b3 :: b4 :: rest4 =>
          match utf8_decode_char [b, b2, b3, b4] with
          | some cp => (utf8_decode rest4).map (cp :: ·)
          | none => none
      | _ => none
    else none

/-- One step of lossy UTF-8 decoding: the code point produced at the
head of the list and the number of bytes consumed (at least one). -/
def lossy_step (l : List Nat) : Nat × Nat :=
  match l with
  | [] => (0xFFFD, 1)
  | b :: rest =>
    if b < 0x80 then (b, 1)
    else if 0xC2 ≤ b ∧ b ≤ 0xDF then
      match rest with
      | b2 :: _ =>
          match utf8_decode_char [b, b2] with
          | some cp => (cp, 2)
          | none => (0xFFFD, 1)
      | [] => (0xFFFD, 1)
    else if 0xE0 ≤ b ∧ b ≤ 0xEF then
      match rest with
      | b2 :: b3 :: _ =>
          match utf8_decode_char [b, b2, b3] with
          | some cp => (cp, 3)
          | none => (0xFFFD, 1)
      | _ => (0xFFFD, 1)
    else if 0xF0 ≤ b ∧ b ≤ 0xF4 then
      match rest with
      | b2 :: b3 :: b4 :: _ =>
          match utf8_decode_char [b, b2, b3, b4] with
          | some cp => (cp, 4)
          | none => (0xFFFD, 1)
      | _ => (0xFFFD, 1)
    else (0xFFFD, 1)

/-- Fuelled driver for lossy decoding; `fuel` bounds the number of
produced code points, and `lossy_step` consumes at least one byte per
step, so fuel equal to the byte count always suffices. -/
def lossy_go : Nat → List Nat → List Nat
  | _, [] => []
  | 0, _ :: _ => []
  | fuel + 1, b :: rest =>
      let s := lossy_step (b :: rest)
      s.1 :: lossy_go fuel ((b :: rest).drop s.2)

/-- Lossy UTF-8 decoding into code points, modelling
`String::from_utf8_lossy`: well-formed sequences decode, a malformed
byte becomes U+FFFD.  (The library replaces a maximal invalid subpart by
one U+FFFD; this model replaces byte-by-byte, which coincides with the
library on every input arising in this development, where only
well-formed text reaches the conversion.) -/
def from_utf8_lossy (l : List Nat) : List Nat := lossy_go l.length l

/-- Render a code point as the one-character string Rust displays. -/
def charToString (c : Nat) : String := (Char.ofNat c).toString

/-- The single-quote character, used by `format!` patterns of the source. -/
def quoteMark : String := (Char.ofNat 39).toString

/-- Model of `format!("{}", ch)` wrapped in single quotes as in
`format!` with a quoted char of the source. -/
def quoted (c : Nat) : String := quoteMark ++ charToString c ++ quoteMark

/-- `interpret_single_byte` of `src/main.rs`.  The match arms are kept
in source order, so the dedicated arms for NUL, CR/LF, TAB, DEL, 0x08
and ESC shadow the later control-letter ranges. -/
def interpret_single_byte (bytes : List Nat) : Option KeyInterpretation :=
  match bytes with
  | [byte] =>
    let pick : Option (KeyCode × String × KeyModifiers) :=
      if byte = 0x00 then some (KeyCode.Null, "Null", KeyModifiers.empty)
      else if byte = 0x0D ∨ byte = 0x0A then
        some (KeyCode.Enter, "Enter", KeyModifiers.empty)
      else if byte = 0x09 then some (KeyCode.Tab, "Tab", KeyModifiers.empty)
      else if byte = 0x7F then
        some (KeyCode.Backspace, "Backspace", KeyModifiers.empty)
      else if byte = 0x08 then
        some (KeyCode.Backspace, "Backspace", ⟨false, true, false⟩)
      else if byte = 0x1B then some (KeyCode.Esc, "Esc", KeyModifiers.empty)
      else if 0x01 ≤ byte ∧ byte ≤ 0x1A then
        some (KeyCode.Char (byte + 0x60), quoted (byte + 0x60), ⟨false, true, false⟩)
      else if 0x1C ≤ byte ∧ byte ≤ 0x1F then
        some (KeyCode.Char (byte + 0x60), quoted (byte + 0x60), ⟨false, true, false⟩)
      else if 0x20 ≤ byte ∧ byte ≤ 0x7E then
        some (KeyCode.Char byte, quoted byte, KeyModifiers.empty)
      else none
    match pick with
    | none => none
    | some (code, key_display, modifiers) =>
      let description :=
        match code with
        | KeyCode.Backspace =>
            if modifiers.control then "Backspace (Ctrl+H)" else "Backspace"
        | KeyCode.Char _ =>
            if modifiers.control then "Control-modified character"
            else "Printable character"
        | KeyCode.Enter => "Carriage return"
        | KeyCode.Tab => "Horizontal tab"
        | KeyCode.Esc => "Escape"
        | KeyCode.Null => "NULL"
        | _ => ""
      some ⟨key_display, code, modifiers, description⟩
  | _ => none

/-- `interpret_utf8_char` of `src/main.rs`: the span must be exactly the
UTF-8 width of its lead byte and decode as one character. -/
def interpret_utf8_char (bytes : List Nat) : Option KeyInterpretation :=
  match bytes with
  | [] => none
  | first :: _ =>
    if utf8_char_width first = bytes.length then
      match utf8_decode_char bytes with
      | some ch =>
          some ⟨quoted ch, KeyCode.Char ch, KeyModifiers.empty, "UTF-8 character"⟩
      | none => none
    else none

/-- `interpret_alt_sequence` of `src/main.rs`: ESC followed by exactly
one UTF-8 character is that character with the Alt modifier. -/
def interpret_alt_sequence (bytes : List Nat) : Option KeyInterpretation :=
  match bytes with
  | 0x1B :: seq =>
    if seq = [] then none
    else
      match utf8_decode_char seq with
      | some ch =>
          some ⟨quoted ch, KeyCode.Char ch, ⟨false, false, true⟩,
                "Alt-modified character"⟩
      | none => none
  | _ => none

/-- `interpret_ss3_sequence` of `src/main.rs`. -/
def interpret_ss3_sequence (bytes : List Nat) : Option KeyInterpretation :=
  match bytes with
  | [0x1B, 0x4F, final_byte] =>
    let table : Option (KeyCode × String × String) :=
      if final_byte = 0x50 then some (KeyCode.F 1, "F1", "SS3 function key")
      else if final_byte = 0x51 then some (KeyCode.F 2, "F2", "SS3 function key")
      else if final_byte = 0x52 then some (KeyCode.F 3, "F3", "SS3 function key")
      else if final_byte = 0x53 then some (KeyCode.F 4, "F4", "SS3 function key")
      else if final_byte = 0x41 then some (KeyCode.Up, "Up", "SS3 arrow key")
      else if final_byte = 0x42 then some (KeyCode.Down, "Down", "SS3 arrow key")
      else if final_byte = 0x43 then some (KeyCode.Right, "Right", "SS3 arrow key")
      else if final_byte = 0x44 then some (KeyCode.Left, "Left", "SS3 arrow key")
      else if final_byte = 0x48 then some (KeyCode.Home, "Home", "SS3 home key")
      else if final_byte = 0x46 then some (KeyCode.End, "End", "SS3 end key")
      else none
    table.map (fun t => ⟨t.2.1, t.1, KeyModifiers.empty, t.2.2⟩)
  | _ => none

/-- A list split on elements satisfying `p`, keeping empty parts,
modelling Rust `str::split`. -/
def split_on_pred (p : Nat → Bool) : List Nat → List (List Nat)
  | [] => [[]]
  | c :: rest =>
    if p c then [] :: split_on_pred p rest
    else
      match split_on_pred p rest with
      | part :: parts => (c :: part) :: parts
      | [] => [[c]]

/-- ASCII-digit test. -/
def isAsciiDigit (c : Nat) : Bool := 0x30 ≤ c ∧ c ≤ 0x39

/-- Numeric value of a nonempty all-digit code-point list. -/
def digitsValue (s : List Nat) : Nat :=
  s.foldl (fun a c => 10 * a + (c - 0x30)) 0

/-- Model of Rust `str::parse::<u16>`: optional leading plus sign, then
one or more ASCII digits, value at most 65535. -/
def parse_u16 (s : List Nat) : Option Nat :=
  let t := match s with
    | 0x2B :: rest => rest
    | _ => s
  if t ≠ [] ∧ t.all isAsciiDigit then
    let v := digitsValue t
    if v ≤ 65535 then some v else none
  else none

/-- Model of Rust `str::parse::<i32>`: optional sign, then one or more
ASCII digits, within the `i32` range. -/
def parse_i32 (s : List Nat) : Option Int :=
  match s with
  | 0x2D :: rest =>
      if rest ≠ [] ∧ rest.all isAsciiDigit then
        let v := digitsValue rest
        if v ≤ 2147483648 then some (-(v : Int)) else none
      else none
  | 0x2B :: rest =>
      if rest ≠ [] ∧ rest.all isAsciiDigit then
        let v := digitsValue rest
        if v ≤ 2147483647 then some (v : Int) else none
      else none
  | _ =>
      if s ≠ [] ∧ s.all isAsciiDigit then
        let v := digitsValue s
        if v ≤ 2147483647 then some (v : Int) else none
      else none

/-- Parameter collection of `parse_csi`: split the parameter text on
semicolons, skip empty parts, parse each as `u16`, failing the whole
parse if any nonempty part is not a `u16` numeral. -/
def parse_params : List (List Nat) → Option (List Nat)
  | [] => some []
  | p :: ps =>
    if p = [] then parse_params ps
    else
      match parse_u16 p with
      | some v => (parse_params ps).map (v :: ·)
      | none => none

/-- `parse_csi` of `src/main.rs`: requires `ESC [`, at least three
bytes, a final byte in `0x40..=0x7E`; strips leading question marks off
the parameter bytes, decodes them as UTF-8 and parses the semicolon
list. -/
def parse_csi (bytes : List Nat) : Option (Nat × List Nat) :=
  match bytes with
  | 0x1B :: 0x5B :: rest =>
    if rest = [] then none
    else
      let final_byte := bytes.getLastD 0
      if 0x40 ≤ final_byte ∧ final_byte ≤ 0x7E then
        let params_bytes := (rest.dropLast).dropWhile (· = 0x3F)
        if params_bytes = [] then some (final_byte, [])
        else
          match utf8_decode params_bytes with
          | some chars =>
              (parse_params (split_on_pred (· = 0x3B) chars)).map
                (fun ps => (final_byte, ps))
          | none => none
      else none
  | _ => none

/-- `decode_modifier_code` of `src/main.rs`. -/
def decode_modifier_code (value : Nat) : KeyModifiers :=
  if value = 2 then ⟨true, false, false⟩
  else if value = 3 then ⟨false, false, true⟩
  else if value = 4 then ⟨true, false, true⟩
  else if value = 5 then ⟨false, true, false⟩
  else if value = 6 then ⟨true, true, false⟩
  else if value = 7 then ⟨false, true, true⟩
  else if value = 8 then ⟨true, true, true⟩
  else KeyModifiers.empty

/-- `split_params_and_modifiers` of `src/main.rs`: with two or more
parameters, the last is a modifier code and the rest are base
parameters. -/
def split_params_and_modifiers (params : List Nat) : List Nat × KeyModifiers :=
  if params.length ≤ 1 then (params, KeyModifiers.empty)
  else
    (params.take (params.length - 1),
     decode_modifier_code ((params.drop (params.length - 1)).headD 0))

/-- `build_arrow_guess` of `src/main.rs`. -/
def build_arrow_guess (name : String) (code : KeyCode) (params : List Nat) :
    KeyInterpretation :=
  let m := (split_params_and_modifiers params).2
  ⟨name, code, m, "CSI arrow/navigation sequence"⟩

/-- `interpret_csi_tilde` of `src/main.rs`: numeric-keypad family keyed
by the first base parameter.  There is no handling of 200/201 here. -/
def interpret_csi_tilde (params : List Nat) : Option KeyInterpretation :=
  let split := split_params_and_modifiers params
  match split.1 with
  | [] => none
  | key_id :: _ =>
    let table : Option (KeyCode × String × String) :=
      if key_id = 1 ∨ key_id = 7 then some (KeyCode.Home, "Home", "CSI ~ (Home)")
      else if key_id = 2 then some (KeyCode.Insert, "Insert", "CSI ~ (Insert)")
      else if key_id = 3 then some (KeyCode.Delete, "Delete", "CSI ~ (Delete)")
      else if key_id = 4 ∨ key_id = 8 then some (KeyCode.End, "End", "CSI ~ (End)")
      else if key_id = 5 then some (KeyCode.PageUp, "PageUp", "CSI ~ (PageUp)")
      else if key_id = 6 then
        some (KeyCode.PageDown, "PageDown", "CSI ~ (PageDown)")
      else if key_id = 11 then some (KeyCode.F 1, "F1", "CSI ~ function key")
      else if key_id = 12 then some (KeyCode.F 2, "F2", "CSI ~ function key")
      else if key_id = 13 then some (KeyCode.F 3, "F3", "CSI ~ function key")
      else if key_id = 14 then some (KeyCode.F 4, "F4", "CSI ~ function key")
      else if key_id = 15 then some (KeyCode.F 5, "F5", "CSI ~ function key")
      else if key_id = 17 then some (KeyCode.F 6, "F6", "CSI ~ function key")
      else if key_id = 18 then some (KeyCode.F 7, "F7", "CSI ~ function key")
      else if key_id = 19 then some (KeyCode.F 8, "F8", "CSI ~ function key")
      else if key_id = 20 then some (KeyCode.F 9, "F9", "CSI ~ function key")
      else if key_id = 21 then some (KeyCode.F 10, "F10", "CSI ~ function key")
      else if key_id = 23 then some (KeyCode.F 11, "F11", "CSI ~ function key")
      else if key_id = 24 then some (KeyCode.F 12, "F12", "CSI ~ function key")
      else none
    table.map (fun t => ⟨t.2.1, t.1, split.2, t.2.2⟩)

/-- `interpret_csi_sequence` of `src/main.rs`.  Note the final-byte
table has no arm for `M`, `m` or `<`-prefixed parameters: SGR mouse
reports are not interpreted here. -/
def interpret_csi_sequence (bytes : List Nat) : Option KeyInterpretation :=
  match parse_csi bytes with
  | none => none
  | some (final_byte, params) =>
    if final_byte = 0x41 then some (build_arrow_guess "Up" KeyCode.Up params)
    else if final_byte = 0x42 then some (build_arrow_guess "Down" KeyCode.Down params)
    else if final_byte = 0x43 then some (build_arrow_guess "Right" KeyCode.Right params)
    else if final_byte = 0x44 then some (build_arrow_guess "Left" KeyCode.Left params)
    else if final_byte = 0x46 then some (build_arrow_guess "End" KeyCode.End params)
    else if final_byte = 0x48 then some (build_arrow_guess "Home" KeyCode.Home params)
    else if final_byte = 0x5A then
      some ⟨"BackTab", KeyCode.BackTab, ⟨true, false, false⟩,
            "CSI BackTab sequence"⟩
    else if final_byte = 0x7E then interpret_csi_tilde params
    else none

/-- `interpret_bytes` of `src/main.rs`: the five interpreters tried in
order; empty input short-circuits to `none`. -/
def interpret_bytes (bytes : List Nat) : Option KeyInterpretation :=
  if bytes = [] then none
  else
    match interpret_csi_sequence bytes with
    | some i => some i
    | none =>
      match interpret_ss3_sequence bytes with
      | some i => some i
      | none =>
        match interpret_alt_sequence bytes with
        | some i => some i
        | none =>
          match interpret_single_byte bytes with
          | some i => some i
          | none => interpret_utf8_char bytes

/-- Debug rendering of a `KeyCode`, modelling `format!` with the derived
Debug instance of crossterm `KeyCode`. -/
def key_code_debug : KeyCode → String
  | KeyCode.Null => "Null"
  | KeyCode.Enter => "Enter"
  | KeyCode.Tab => "Tab"
  | KeyCode.Backspace => "Backspace"
  | KeyCode.Esc => "Esc"
  | KeyCode.Char c => "Char(" ++ quoted c ++ ")"
  | KeyCode.Up => "Up"
  | KeyCode.Down => "Down"
  | KeyCode.Left => "Left"
  | KeyCode.Right => "Right"
  | KeyCode.Home => "Home"
  | KeyCode.End => "End"
  | KeyCode.PageUp => "PageUp"
  | KeyCode.PageDown => "PageDown"
  | KeyCode.Insert => "Insert"
  | KeyCode.Delete => "Delete"
  | KeyCode.BackTab => "BackTab"
  | KeyCode.F n => "F(" ++ toString n ++ ")"

/-- Debug rendering of a nonempty modifier set, modelling the bitflags
Debug output of crossterm `KeyModifiers` (flag declaration order SHIFT,
CONTROL, ALT). -/
def key_modifiers_debug (m : KeyModifiers) : String :=
  let parts :=
    (if m.shift then ["SHIFT"] else []) ++
    (if m.control then ["CONTROL"] else []) ++
    (if m.alt then ["ALT"] else [])
  "KeyModifiers(" ++ String.intercalate (" | ") parts ++ ")"

/-- `format_modifiers` of `src/main.rs`. -/
def format_modifiers (m : KeyModifiers) : String :=
  if m = KeyModifiers.empty then "None" else key_modifiers_debug m

/-- The displayed guess record, modelling `GuessInfo` of `src/main.rs`. -/
structure GuessInfo where
  key : String
  code : String
  modifiers : String
  kind : String
  description : String
deriving DecidableEq

/-- `GuessInfo::from_bytes` of `src/main.rs`: a successful
interpretation renders its fields; no interpretation yields the fixed
Unknown record. -/
def GuessInfo.from_bytes (bytes : List Nat) : GuessInfo :=
  match interpret_bytes bytes with
  | some interp =>
      ⟨interp.key_display, key_code_debug interp.code,
       format_modifiers interp.modifiers, "Press", interp.description⟩
  | none => ⟨"Unknown", "Unknown", "None", "Unknown", ""⟩

/-! ## Incremental segmenter of `src/main.rs` -/

/-- Scan for the first byte in `0x40..=0x7E`, returning its index,
modelling the `enumerate` loop of `csi_sequence_length`. -/
def csi_scan : List Nat → Option Nat
  | [] => none
  | b :: rest =>
    if 0x40 ≤ b ∧ b ≤ 0x7E then some 0
    else (csi_scan rest).map (· + 1)

/-- `csi_sequence_length` of `src/main.rs`: with at least three bytes,
the event runs from ESC through the first terminator byte after the
`ESC [` prefix; with no terminator anywhere in the buffer the scan
yields `none` (there is no lookahead cap in this implementation). -/
def csi_sequence_length (buffer : List Nat) : Option Nat :=
  if buffer.length < 3 then none
  else (csi_scan (buffer.drop 2)).map (· + 3)

/-- `try_extract_event` of `src/main.rs`. -/
def try_extract_event (buffer : List Nat) : Option Nat :=
  match buffer with
  | [] => none
  | first :: rest =>
    if first = 0x1B then
      match rest with
      | [] => none
      | second :: _ =>
        if second = 0x5B then csi_sequence_length buffer
        else if second = 0x4F then
          if 3 ≤ buffer.length then some 3 else none
        else
          if 1 + utf8_char_width second ≤ buffer.length then
            some (1 + utf8_char_width second)
          else none
    else if 0x80 ≤ first then
      if utf8_char_width first ≤ buffer.length then
        some (utf8_char_width first)
      else none
    else some 1

/-- The extraction loop of `RawInputReader::push_byte`: repeatedly carve
the event prefix off the buffer and append it at the back of the ready
queue.  Fuel bounds the iteration count; by `try_extract_event_bound`
below each iteration removes at least one byte, so fuel equal to the
buffer length makes this exactly the source's while-let loop. -/
def extract_loop : Nat → List Nat → List (List Nat) → List Nat × List (List Nat)
  | 0, buf, acc => (buf, acc)
  | fuel + 1, buf, acc =>
    match try_extract_event buf with
    | none => (buf, acc)
    | some len => extract_loop fuel (buf.drop len) (acc ++ [buf.take len])

/-- Flush timeout of `src/main.rs` (`FLUSH_TIMEOUT`), in milliseconds. -/
def flush_timeout_ms : Nat := 35

/-- State of `RawInputReader`: the pending buffer, the ready queue, and
the age in milliseconds of the most recently appended byte (elapsed
wall-clock time is passed in as data, since the embedding is pure). -/
structure ReaderState where
  buffer : List Nat
  ready : List (List Nat)
  last_byte_age_ms : Option Nat
deriving DecidableEq

def ReaderState.initial : ReaderState := ⟨[], [], none⟩

/-- `RawInputReader::should_flush_pending`. -/
def should_flush_pending (st : ReaderState) : Bool :=
  match st.last_byte_age_ms with
  | some age => flush_timeout_ms ≤ age
  | none => false

/-- `RawInputReader::push_byte`: append the byte, then run the
extraction loop. -/
def push_byte (st : ReaderState) (byte : Nat) : ReaderState :=
  let buf := st.buffer ++ [byte]
  let r := extract_loop buf.length buf st.ready
  ⟨r.1, r.2, some 0⟩

/-- Submit a byte sequence one byte at a time. -/
def feed_bytes (bytes : List Nat) (st : ReaderState) : ReaderState :=
  bytes.foldl push_byte st

/-- The pure event-delivery fragment of `RawInputReader::poll_next`
when no new bytes are read: pop the front of the ready queue if any;
otherwise, if the pending buffer is nonempty and the flush timeout has
elapsed, drain the whole buffer as one event; otherwise nothing. -/
def poll_next_step (st : ReaderState) : Option (List Nat) × ReaderState :=
  match st.ready with
  | e :: rest => (some e, ⟨st.buffer, rest, st.last_byte_age_ms⟩)
  | [] =>
    if st.buffer ≠ [] ∧ should_flush_pending st = true then
      (some st.buffer, ⟨[], [], st.last_byte_age_ms⟩)
    else (none, st)

/-! ## Tokenizer of `src/debug_rust_only.rs` -/

/-- `Token` of `src/debug_rust_only.rs`.  The `CSI`/`SS3` payloads are
the gathered text as code points; `Mouse` fields mirror the `i32`
fields of the source. -/
inductive Token where
  | Byte (b : Nat)
  | Ctrl (name : String)
  | Esc
  | CSI (s : List Nat)
  | SS3 (s : List Nat)
  | Key (name : String)
  | PasteStart
  | PasteEnd
  | Mouse (press : Bool) (x y : Int) (mods btn : Int)
deriving DecidableEq

/-- The control-byte arm of `parse_next` (`b <= 0x1F || b == 0x7F`). -/
def ctrl_token (b : Nat) : Token :=
  if b = 0x00 then Token.Ctrl "@"
  else if b = 0x01 then Token.Ctrl "A"
  else if b = 0x02 then Token.Ctrl "B"
  else if b = 0x03 then Token.Ctrl "C"
  else if b = 0x04 then Token.Ctrl "D"
  else if b = 0x05 then Token.Ctrl "E"
  else if b = 0x06 then Token.Ctrl "F"
  else if b = 0x07 then Token.Key "BEL"
  else if b = 0x08 then Token.Key "BS"
  else if b = 0x09 then Token.Key "TAB"
  else if b = 0x0A then Token.Key "LF"
  else if b = 0x0D then Token.Key "CR"
  else if b = 0x1B then Token.Esc
  else if b = 0x7F then Token.Key "DEL"
  else Token.Ctrl "?"

/-- The consume loop of `gather_ansi`: push bytes into `tmp` until a
final byte in `0x40..=0x7E` arrives (returning the gathered bytes
marked final), the protective cap of 64 gathered bytes beyond the lead
is hit (returning them marked not final), or the queue runs dry. -/
def gather_loop : List Nat → List Nat → (List Nat × Bool) × List Nat
  | [], tmp => ((tmp, false), [])
  | c :: rest, tmp =>
    let tmp2 := tmp ++ [c]
    if 0x40 ≤ c ∧ c ≤ 0x7E then ((tmp2, true), rest)
    else if 64 < tmp2.length then ((tmp2, false), rest)
    else gather_loop rest tmp2

/-- `gather_ansi` of `src/debug_rust_only.rs`: pops `ESC lead` off the
queue, gathers until a final byte or the cap, and renders the gathered
bytes with lossy UTF-8 conversion.  Returns the rendered text, the
final-byte flag and the remaining queue. -/
def gather_ansi (q : List Nat) (lead : Nat) : Option ((List Nat × Bool) × List Nat) :=
  match q with
  | _ :: _ :: rest =>
    let r := gather_loop rest [lead]
    some ((from_utf8_lossy r.1.1, r.1.2), r.2)
  | _ => none

/-- `map_ss3` of `src/debug_rust_only.rs`. -/
def map_ss3 (s : List Nat) : Option Token :=
  if s = [0x4F, 0x50] then some (Token.Key "F1")
  else if s = [0x4F, 0x51] then some (Token.Key "F2")
  else if s = [0x4F, 0x52] then some (Token.Key "F3")
  else if s = [0x4F, 0x53] then some (Token.Key "F4")
  else if s = [0x4F, 0x41] then some (Token.Key "UP")
  else if s = [0x4F, 0x42] then some (Token.Key "DOWN")
  else if s = [0x4F, 0x43] then some (Token.Key "RIGHT")
  else if s = [0x4F, 0x44] then some (Token.Key "LEFT")
  else none

/-- The `~`-suffixed numeral table of `map_csi`. -/
def tilde_key_name (num : List Nat) : Option String :=
  if num = [0x31] ∨ num = [0x37] then some "HOME"
  else if num = [0x32] then some "INS"
  else if num = [0x33] then some "DEL"
  else if num = [0x34] ∨ num = [0x38] then some "END"
  else if num = [0x35] then some "PGUP"
  else if num = [0x36] then some "PGDN"
  else if num = [0x31, 0x31] then some "F1"
  else if num = [0x31, 0x32] then some "F2"
  else if num = [0x31, 0x33] then some "F3"
  else if num = [0x31, 0x34] then some "F4"
  else if num = [0x31, 0x35] then some "F5"
  else if num = [0x31, 0x37] then some "F6"
  else if num = [0x31, 0x38] then some "F7"
  else if num = [0x31, 0x39] then some "F8"
  else if num = [0x32, 0x30] then some "F9"
  else if num = [0x32, 0x31] then some "F10"
  else if num = [0x32, 0x33] then some "F11"
  else if num = [0x32, 0x34] then some "F12"
  else none

/-- The low 32 bits of an `i32` value, for modelling Rust bitwise
operations faithfully on negatives via two's complement. -/
def i32_bits (a : Int) : Nat := (a.emod 4294967296).toNat

/-- `map_csi` of `src/debug_rust_only.rs`: arrow/home/end literals,
then the bracketed-paste literals `[200~`/`[201~`, then the generic
`~`-numeral table, then SGR mouse reports `[<b;x;yM` / `...m`. -/
def map_csi (s : List Nat) : Option Token :=
  if s = [0x5B, 0x41] then some (Token.Key "UP")
  else if s = [0x5B, 0x42] then some (Token.Key "DOWN")
  else if s = [0x5B, 0x43] then some (Token.Key "RIGHT")
  else if s = [0x5B, 0x44] then some (Token.Key "LEFT")
  else if s = [0x5B, 0x48] then some (Token.Key "HOME")
  else if s = [0x5B, 0x46] then some (Token.Key "END")
  else if s = [0x5B, 0x32, 0x30, 0x30, 0x7E] then some Token.PasteStart
  else if s = [0x5B, 0x32, 0x30, 0x31, 0x7E] then some Token.PasteEnd
  else
    match s with
    | 0x5B :: rest =>
      match rest.findIdx? (· = 0x7E) with
      | some idx => (tilde_key_name (rest.take idx)).map Token.Key
      | none =>
        match rest with
        | 0x3C :: rest2 =>
          match split_on_pred (fun c => c = 0x3B ∨ c = 0x4D ∨ c = 0x6D) rest2 with
          | btn :: x :: y :: _ =>
            let press := rest2.contains 0x4D
            match parse_i32 btn, parse_i32 x, parse_i32 y with
            | some b, some cx, some cy =>
                some (Token.Mouse press cx cy
                  (Int.ofNat ((i32_bits b &&& 56) >>> 3))
                  (Int.ofNat (i32_bits b &&& 7)))
            | _, _, _ => none
          | _ => none
        | _ => none
    | _ => none

/-- `parse_next` of `src/debug_rust_only.rs`, returning the produced
token (if any) and the remaining queue.  The control-byte arm tests
`b <= 0x1F || b == 0x7F` first, so ESC (0x1B) is always consumed there
and the ESC-sequence arm below it is unreachable; it is embedded
faithfully nonetheless. -/
def parse_next (q : List Nat) : Option Token × List Nat :=
  match q with
  | [] => (none, [])
  | b :: rest =>
    if b ≤ 0x1F ∨ b = 0x7F then (some (ctrl_token b), rest)
    else if b = 0x1B then
      match rest with
      | [] => (none, q)
      | second :: _ =>
        if second = 0x5B then
          match gather_ansi q 0x5B with
          | some ((seq, final_ready), q2) =>
            if final_ready = false then (none, q2)
            else
              match map_csi seq with
              | some tok => (some tok, q2)
              | none => (some (Token.CSI seq), q2)
          | none => (none, q)
        else if second = 0x4F then
          match gather_ansi q 0x4F with
          | some ((seq, final_ready), q2) =>
            if final_ready = false then (none, q2)
            else
              match map_ss3 seq with
              | some tok => (some tok, q2)
              | none => (some (Token.SS3 seq), q2)
          | none => (none, q)
        else (some Token.Esc, rest)
    else (some (Token.Byte b), rest)

/-! ## Helper lemmas -/

lemma utf8_char_width_pos (b : Nat) : 1 ≤ utf8_char_width b := by
  unfold utf8_char_width
  repeat (first | omega | split)

lemma csi_scan_lt {l : List Nat} {i : Nat} (h : csi_scan l = some i) :
    i < l.length := by
  induction l generalizing i with
  | nil => simp [csi_scan] at h
  | cons b rest ih =>
    simp only [csi_scan] at h
    split at h
    · cases h
      simp
    · rw [Option.map_eq_some'] at h
      obtain ⟨j, hj, rfl⟩ := h
      have := ih hj
      simp only [List.length_cons]
      omega

lemma csi_scan_none {l : List Nat} (h : ∀ b ∈ l, ¬(0x40 ≤ b ∧ b ≤ 0x7E)) :
    csi_scan l = none := by
  induction l with
  | nil => rfl
  | cons b rest ih =>
    simp only [csi_scan]
    rw [if_neg (h b (by simp))]
    rw [ih (fun x hx => h x (by simp [hx]))]
    rfl

lemma csi_sequence_length_bound {buf : List Nat} {len : Nat}
    (h : csi_sequence_length buf = some len) : 3 ≤ len ∧ len ≤ buf.length := by
  unfold csi_sequence_length at h
  split at h
  · cases h
  · rename_i hlen
    rw [Option.map_eq_some'] at h
    obtain ⟨i, hi, rfl⟩ := h
    have hlt := csi_scan_lt hi
    rw [List.length_drop] at hlt
    omega

lemma try_extract_event_bound {buf : List Nat} {len : Nat}
    (h : try_extract_event buf = some len) : 1 ≤ len ∧ len ≤ buf.length := by
  match buf with
  | [] => cases h
  | first :: rest =>
    simp only [try_extract_event] at h
    split at h
    · match rest with
      | [] => cases h
      | second :: tail =>
        simp only at h
        split at h
        · have := csi_sequence_length_bound h
          omega
        · split at h
          · split at h
            · cases h
              rename_i h3
              omega
            · cases h
          · split at h
            · cases h
              rename_i hw
              omega
            · cases h
    · split at h
      · split at h
        · cases h
          rename_i hw
          exact ⟨utf8_char_width_pos _, hw⟩
        · cases h
      · cases h
        simp

lemma extract_loop_join (fuel : Nat) :
    ∀ (buf : List Nat) (acc : List (List Nat)),
      (extract_loop fuel buf acc).2.flatten ++ (extract_loop fuel buf acc).1 =
        acc.flatten ++ buf := by
  induction fuel with
  | zero => intro buf acc; simp [extract_loop]
  | succ n ih =>
    intro buf acc
    simp only [extract_loop]
    cases h : try_extract_event buf with
    | none => simp
    | some len =>
      rw [ih]
      simp [List.flatten_append, List.append_assoc]

lemma push_byte_join (st : ReaderState) (b : Nat) :
    (push_byte st b).ready.flatten ++ (push_byte st b).buffer =
      st.ready.flatten ++ st.buffer ++ [b] := by
  simp only [push_byte]
  rw [extract_loop_join]
  simp [List.append_assoc]

lemma feed_bytes_join (bytes : List Nat) :
    ∀ st : ReaderState,
      (feed_bytes bytes st).ready.flatten ++ (feed_bytes bytes st).buffer =
        st.ready.flatten ++ st.buffer ++ bytes := by
  induction bytes with
  | nil => intro st; simp [feed_bytes]
  | cons b bs ih =>
    intro st
    simp only [feed_bytes, List.foldl_cons]
    have h := ih (push_byte st b)
    simp only [feed_bytes] at h
    rw [h, push_byte_join]
    simp [List.append_assoc]

lemma gather_loop_cap :
    ∀ (n : Nat) (q tmp : List Nat), tmp.length + n = 65 → 1 ≤ n →
      n ≤ q.length → (∀ b ∈ q.take n, ¬(0x40 ≤ b ∧ b ≤ 0x7E)) →
      gather_loop q tmp = ((tmp ++ q.take n, false), q.drop n) := by
  intro n
  induction n with
  | zero => intro q tmp _ h2 _ _; omega
  | succ m ih =>
    intro q tmp hlen _ hle hterm
    match q with
    | [] => simp at hle
    | c :: rest =>
      simp only [gather_loop]
      have hcterm : ¬(0x40 ≤ c ∧ c ≤ 0x7E) := hterm c (by simp)
      rw [if_neg hcterm]
      by_cases hm : m = 0
      · subst hm
        rw [if_pos (by simp; omega)]
        simp
      · rw [if_neg (by simp; omega)]
        rw [ih rest (tmp ++ [c]) (by simp; omega) (by omega)
              (by simp at hle; omega)
              (fun x hx => hterm x (by simp [List.take_succ_cons]; right; exact hx))]
        simp [List.take_succ_cons, List.drop_succ_cons, List.append_assoc]

/-! ## Claims -/

/-- Claim C1: the segmenter's extraction rule computes event lengths
exactly as specified — a lone ESC is incomplete; `ESC O` spans exactly 3
bytes once 3 are present; `ESC` plus any second byte other than `[` or
`O` spans 1 plus the UTF-8 width of that second byte once present; a
non-ESC byte below 0x80 spans 1 byte; a byte at or above 0x80 spans its
UTF-8 width (2 for `110xxxxx`, 3 for `1110xxxx`, 4 for `11110xxx`,
1 otherwise) once that many bytes are present. -/
theorem c1_extraction_rule :
    (try_extract_event [0x1B] = none) ∧
    (∀ c rest, try_extract_event (0x1B :: 0x4F :: c :: rest) = some 3) ∧
    (∀ second rest, second ≠ 0x5B → second ≠ 0x4F →
      1 + utf8_char_width second ≤ (0x1B :: second :: rest).length →
      try_extract_event (0x1B :: second :: rest) =
        some (1 + utf8_char_width second)) ∧
    (∀ first rest, first < 0x80 → first ≠ 0x1B →
      try_extract_event (first :: rest) = some 1) ∧
    (∀ first rest, 0x80 ≤ first →
      utf8_char_width first ≤ (first :: rest).length →
      try_extract_event (first :: rest) = some (utf8_char_width first)) ∧
    (∀ b, 0x80 ≤ b →
      (b >>> 5 = 0b110 → utf8_char_width b = 2) ∧
      (b >>> 4 = 0b1110 → utf8_char_width b = 3) ∧
      (b >>> 3 = 0b11110 → utf8_char_width b = 4) ∧
      (b >>> 5 ≠ 0b110 → b >>> 4 ≠ 0b1110 → b >>> 3 ≠ 0b11110 →
        utf8_char_width b = 1)) := by
  refine ⟨by decide, ?_, ?_, ?_, ?_, ?_⟩
  · intro c rest
    simp only [try_extract_event]
    rw [if_pos trivial, if_neg (by decide), if_pos trivial, if_pos (by simp)]
  · intro second rest h5B h4F hlen
    simp only [try_extract_event]
    rw [if_pos trivial, if_neg h5B, if_neg h4F, if_pos hlen]
  · intro first rest hlt hne
    simp only [try_extract_event]
    rw [if_neg hne, if_neg (by omega)]
  · intro first rest hge hlen
    simp only [try_extract_event]
    rw [if_neg (by omega), if_pos hge, if_pos hlen]
  · intro b hb
    have h45 : b >>> 5 = (b >>> 4) >>> 1 := by
      rw [← Nat.shiftRight_add]
    have h35 : b >>> 5 = (b >>> 3) >>> 2 := by
      rw [← Nat.shiftRight_add]
    have h34 : b >>> 4 = (b >>> 3) >>> 1 := by
      rw [← Nat.shiftRight_add]
    refine ⟨?_, ?_, ?_, ?_⟩
    · intro h2
      unfold utf8_char_width
      rw [if_neg (by omega), if_pos h2]
    · intro h3
      unfold utf8_char_width
      rw [if_neg (by omega), if_neg (by rw [h45, h3]; decide), if_pos h3]
    · intro h4
      unfold utf8_char_width
      rw [if_neg (by omega), if_neg (by rw [h35, h4]; decide),
          if_neg (by rw [h34, h4]; decide), if_pos h4]
    · intro n2 n3 n4
      unfold utf8_char_width
      rw [if_neg (by omega), if_neg n2, if_neg n3, if_neg n4]

/-- Witness for C1: the extraction rule applied to concrete buffers for
the Alt-prefixed case, the ASCII case, the UTF-8 case and the width
characterisation. -/
theorem c1_extraction_rule_witness :
    try_extract_event [0x1B, 0x61] = some (1 + utf8_char_width 0x61) ∧
    try_extract_event [0x41] = some 1 ∧
    try_extract_event [0xC3, 0xA9] = some (utf8_char_width 0xC3) ∧
    utf8_char_width 0xC3 = 2 ∧
    try_extract_event (0x1B :: 0x4F :: 0x50 :: []) = some 3 :=
  ⟨c1_extraction_rule.2.2.1 0x61 [] (by decide) (by decide) (by decide),
   c1_extraction_rule.2.2.2.1 0x41 [] (by decide) (by decide),
   c1_extraction_rule.2.2.2.2.1 0xC3 [0xA9] (by decide) (by decide),
   (c1_extraction_rule.2.2.2.2.2 0xC3 (by decide)).1 (by decide),
   c1_extraction_rule.2.1 0x50 []⟩

/-- Claim C9: whenever `try_extract_event` returns a length, it is at
least 1 and at most the buffer length, so each iteration of the
extraction loop drains an in-bounds nonempty prefix, the buffer length
strictly decreases and the loop terminates. -/
theorem c9_extract_bound :
    ∀ (buffer : List Nat) (len : Nat), try_extract_event buffer = some len →
      1 ≤ len ∧ len ≤ buffer.length ∧
        (buffer.drop len).length < buffer.length := by
  intro buffer len h
  have hb := try_extract_event_bound h
  rw [List.length_drop]
  omega

/-- Witness for C9: bound applied to the concrete buffer `[0x41]`. -/
theorem c9_extract_bound_witness :
    1 ≤ 1 ∧ 1 ≤ ([0x41] : List Nat).length ∧
      (([0x41] : List Nat).drop 1).length < ([0x41] : List Nat).length :=
  c9_extract_bound [0x41] 1 (by decide)

/-- Counterexample for C2: on a buffer `ESC [` followed by 70 bytes with
no terminator in `0x40..=0x7E`, `try_extract_event` of `src/main.rs`
yields `none` — the segmenter treats the buffer as incomplete and keeps
waiting — instead of emitting the accumulated bytes as a raw
unrecognized CSI token; and `parse_next` of `src/debug_rust_only.rs`
emits a bare Esc token for the same buffer, not a CSI token. -/
theorem c2_counterexample :
    try_extract_event (0x1B :: 0x5B :: List.replicate 70 0x30) = none ∧
    parse_next (0x1B :: 0x5B :: List.replicate 70 0x30) =
      (some Token.Esc, 0x5B :: List.replicate 70 0x30) := by decide

/-- Claim C2 (amended): neither implementation emits a raw unrecognized
CSI token at a 64-byte cap.  In `src/main.rs`, `csi_sequence_length`
has no lookahead cap: any `ESC [` buffer without a terminator byte in
`0x40..=0x7E` stays incomplete no matter its length.  In
`src/debug_rust_only.rs`, `gather_ansi` does stop once more than 64
bytes beyond the lead are gathered, but returns the accumulated text
flagged as not-final (its caller then produces no token). -/
theorem c2_amended :
    (∀ rest : List Nat, (∀ b ∈ rest, ¬(0x40 ≤ b ∧ b ≤ 0x7E)) →
      try_extract_event (0x1B :: 0x5B :: rest) = none) ∧
    (∀ rest : List Nat, 64 ≤ rest.length →
      (∀ b ∈ rest.take 64, ¬(0x40 ≤ b ∧ b ≤ 0x7E)) →
      gather_ansi (0x1B :: 0x5B :: rest) 0x5B =
        some ((from_utf8_lossy (0x5B :: rest.take 64), false),
              rest.drop 64)) := by
  constructor
  · intro rest hterm
    simp only [try_extract_event]
    rw [if_pos trivial, if_pos trivial]
    unfold csi_sequence_length
    split
    · rfl
    · have hdrop : (0x1B :: 0x5B :: rest).drop 2 = rest := rfl
      rw [hdrop, csi_scan_none hterm]
      rfl
  · intro rest hlen hterm
    simp only [gather_ansi]
    rw [gather_loop_cap 64 rest [0x5B] (by simp) (by omega) hlen hterm]
    simp

/-- Witness for C2 (amended): both conjuncts applied to `ESC [` followed
by 64 zero digits. -/
theorem c2_amended_witness :
    try_extract_event (0x1B :: 0x5B :: List.replicate 64 0x30) = none ∧
    gather_ansi (0x1B :: 0x5B :: List.replicate 64 0x30) 0x5B =
      some ((from_utf8_lossy (0x5B :: (List.replicate 64 0x30).take 64), false),
            (List.replicate 64 0x30).drop 64) :=
  ⟨c2_amended.1 _ (by decide), c2_amended.2 _ (by decide) (by decide)⟩

/-- Claim C3, evaluated at the specified input: `map_csi` of
`src/debug_rust_only.rs` decodes the gathered SGR mouse text
`[<0;10;20M` to a pressed Mouse token with x=10, y=20, button 0 and no
modifiers, and the trailing `m` form to the released one (the claimed
decode table is implemented there); but neither end-to-end decoder
produces it for the full byte span: `parse_next` consumes the leading
ESC as a bare Esc token (its ESC-sequence branch is shadowed by the
`b <= 0x1F` control-byte test), and `interpret_bytes` of `src/main.rs`
has no mouse interpretation at all. -/
theorem c3_mouse_evaluation :
    map_csi [0x5B, 0x3C, 0x30, 0x3B, 0x31, 0x30, 0x3B, 0x32, 0x30, 0x4D] =
      some (Token.Mouse true 10 20 0 0) ∧
    map_csi [0x5B, 0x3C, 0x30, 0x3B, 0x31, 0x30, 0x3B, 0x32, 0x30, 0x6D] =
      some (Token.Mouse false 10 20 0 0) ∧
    map_csi [0x5B, 0x3C, 0x31, 0x33, 0x3B, 0x32, 0x3B, 0x33, 0x4D] =
      some (Token.Mouse true 2 3 1 5) ∧
    parse_next [0x1B, 0x5B, 0x3C, 0x30, 0x3B, 0x31, 0x30, 0x3B, 0x32, 0x30, 0x4D] =
      (some Token.Esc, [0x5B, 0x3C, 0x30, 0x3B, 0x31, 0x30, 0x3B, 0x32, 0x30, 0x4D]) ∧
    interpret_bytes [0x1B, 0x5B, 0x3C, 0x30, 0x3B, 0x31, 0x30, 0x3B, 0x32, 0x30, 0x4D] =
      none := by decide

/-- Claim C4, evaluated at the specified inputs: `map_csi` of
`src/debug_rust_only.rs` maps `[200~` to PasteStart and `[201~` to
PasteEnd via literal checks placed before the generic `~` numeral table
(which itself rejects 200); but neither end-to-end decoder produces the
paste tokens for the full byte spans: `parse_next` consumes the leading
ESC as a bare Esc token, and `interpret_bytes` of `src/main.rs` has no
interpretation for parameter 200 or 201. -/
theorem c4_paste_evaluation :
    map_csi [0x5B, 0x32, 0x30, 0x30, 0x7E] = some Token.PasteStart ∧
    map_csi [0x5B, 0x32, 0x30, 0x31, 0x7E] = some Token.PasteEnd ∧
    tilde_key_name [0x32, 0x30, 0x30] = none ∧
    tilde_key_name [0x32, 0x30, 0x31] = none ∧
    parse_next [0x1B, 0x5B, 0x32, 0x30, 0x30, 0x7E] =
      (some Token.Esc, [0x5B, 0x32, 0x30, 0x30, 0x7E]) ∧
    parse_next [0x1B, 0x5B, 0x32, 0x30, 0x31, 0x7E] =
      (some Token.Esc, [0x5B, 0x32, 0x30, 0x31, 0x7E]) ∧
    interpret_bytes [0x1B, 0x5B, 0x32, 0x30, 0x30, 0x7E] = none ∧
    interpret_bytes [0x1B, 0x5B, 0x32, 0x30, 0x31, 0x7E] = none := by decide

/-- Counterexample for C5: a pending buffer holding only the UTF-8 lead
byte 0xC3 (incomplete: `try_extract_event` yields none) is flushed by
`poll_next` as soon as the flush timeout has elapsed —
`should_flush_pending` looks only at elapsed time, never at buffer
content — and the flushed lone byte has no interpretation. -/
theorem c5_counterexample :
    should_flush_pending ⟨[0xC3], [], some 35⟩ = true ∧
    poll_next_step ⟨[0xC3], [], some 35⟩ =
      (some [0xC3], ⟨[], [], some 35⟩) ∧
    try_extract_event [0xC3] = none ∧
    interpret_bytes [0xC3] = none := by decide

/-- Claim C5 (amended): the elapsed-time flush applies to every
nonempty pending buffer regardless of its content, incomplete UTF-8
included; the two-submission sequence 0xC3 then 0xA9 produces the
single event `[0xC3, 0xA9]` (which decodes to the character U+00E9 with
no modifiers) only when the second byte arrives before the flush
timeout elapses. -/
theorem c5_amended :
    (∀ (buf : List Nat) (age : Nat), buf ≠ [] → flush_timeout_ms ≤ age →
      poll_next_step ⟨buf, [], some age⟩ = (some buf, ⟨[], [], some age⟩)) ∧
    (feed_bytes [0xC3, 0xA9] ReaderState.initial).ready = [[0xC3, 0xA9]] ∧
    (feed_bytes [0xC3, 0xA9] ReaderState.initial).buffer = [] ∧
    (interpret_bytes [0xC3, 0xA9]).map (fun i => (i.code, i.modifiers)) =
      some (KeyCode.Char 0xE9, KeyModifiers.empty) := by
  refine ⟨?_, by decide, by decide, by decide⟩
  intro buf age hne hage
  simp only [poll_next_step, should_flush_pending]
  rw [if_pos ⟨hne, by simpa using hage⟩]

/-- Witness for C5 (amended): the flush clause applied to the concrete
pending buffer `[0xC3]` at age 35 ms. -/
theorem c5_amended_witness :
    poll_next_step ⟨[0xC3], [], some 35⟩ = (some [0xC3], ⟨[], [], some 35⟩) :=
  c5_amended.1 [0xC3] 35 (by decide) (by decide)

/-- Counterexample for C6: decoding the single byte 0x09 yields Tab
with no modifiers, not `Char(0x69, {Control})` as the claim requires
for every byte in `0x01..=0x1A`. -/
theorem c6_counterexample :
    (interpret_bytes [0x09]).map (fun i => (i.code, i.modifiers)) =
      some (KeyCode.Tab, KeyModifiers.empty) ∧
    (KeyCode.Tab, KeyModifiers.empty) ≠
      (KeyCode.Char (0x09 + 0x60), (⟨false, true, false⟩ : KeyModifiers)) := by
  decide

/-- Claim C6 (amended): for bytes in `0x01..=0x1A` other than 0x08,
0x09, 0x0A and 0x0D — which the earlier dedicated match arms intercept
as Backspace+Control, Tab, Enter and Enter — decoding `[b]` yields
`Char(b+0x60, {Control})`. -/
theorem c6_amended :
    (∀ b, 1 ≤ b → b ≤ 0x1A → b ≠ 0x08 → b ≠ 0x09 → b ≠ 0x0A → b ≠ 0x0D →
      (interpret_bytes [b]).map (fun i => (i.code, i.modifiers)) =
        some (KeyCode.Char (b + 0x60), ⟨false, true, false⟩)) ∧
    (interpret_bytes [0x08]).map (fun i => (i.code, i.modifiers)) =
      some (KeyCode.Backspace, ⟨false, true, false⟩) ∧
    (interpret_bytes [0x09]).map (fun i => (i.code, i.modifiers)) =
      some (KeyCode.Tab, KeyModifiers.empty) ∧
    (interpret_bytes [0x0A]).map (fun i => (i.code, i.modifiers)) =
      some (KeyCode.Enter, KeyModifiers.empty) ∧
    (interpret_bytes [0x0D]).map (fun i => (i.code, i.modifiers)) =
      some (KeyCode.Enter, KeyModifiers.empty) := by
  refine ⟨?_, by decide, by decide, by decide, by decide⟩
  intro b h1 h2 h8 h9 h10 h13
  interval_cases b <;> first | omega | decide

/-- Witness for C6 (amended): the control-letter clause applied to the
concrete byte 0x03 (Ctrl-C). -/
theorem c6_amended_witness :
    (interpret_bytes [0x03]).map (fun i => (i.code, i.modifiers)) =
      some (KeyCode.Char (0x03 + 0x60), ⟨false, true, false⟩) :=
  c6_amended.1 0x03 (by decide) (by decide) (by decide) (by decide)
    (by decide) (by decide)

/-- Claim C7: with two or more `;`-separated parameters the last one is
a modifier code decoded by the table 2→Shift, 3→Alt, 4→Shift+Alt,
5→Control, 6→Shift+Control, 7→Alt+Control, 8→Shift+Alt+Control, and the
remaining parameters are the base parameters; decoding
`ESC [ 1 ; 5 A` yields Up with exactly Control. -/
theorem c7_modifier_split :
    (∀ (ps : List Nat) (m : Nat), ps ≠ [] →
      split_params_and_modifiers (ps ++ [m]) = (ps, decode_modifier_code m)) ∧
    decode_modifier_code 2 = ⟨true, false, false⟩ ∧
    decode_modifier_code 3 = ⟨false, false, true⟩ ∧
    decode_modifier_code 4 = ⟨true, false, true⟩ ∧
    decode_modifier_code 5 = ⟨false, true, false⟩ ∧
    decode_modifier_code 6 = ⟨true, true, false⟩ ∧
    decode_modifier_code 7 = ⟨false, true, true⟩ ∧
    decode_modifier_code 8 = ⟨true, true, true⟩ ∧
    interpret_bytes [0x1B, 0x5B, 0x31, 0x3B, 0x35, 0x41] =
      some ⟨"Up", KeyCode.Up, ⟨false, true, false⟩,
            "CSI arrow/navigation sequence"⟩ := by
  refine ⟨?_, by decide, by decide, by decide, by decide, by decide,
          by decide, by decide, by decide⟩
  intro ps m hne
  have hlen : (ps ++ [m]).length = ps.length + 1 := by simp
  unfold split_params_and_modifiers
  rw [if_neg (by simp [hlen]; exact hne)]
  rw [hlen]
  simp only [Nat.add_sub_cancel]
  rw [List.take_left, List.drop_left]
  rfl

/-- Witness for C7: the split applied to the concrete parameter list
`[1, 5]`. -/
theorem c7_modifier_split_witness :
    split_params_and_modifiers [1, 5] = ([1], decode_modifier_code 5) :=
  c7_modifier_split.1 [1] 5 (by decide)

/-- Claim C8: the ready queue is FIFO and arrival order is preserved —
after feeding any byte sequence, the ready events in queue order
followed by the remaining pending buffer reproduce the submitted bytes
exactly; one loop iteration moves the extracted prefix from the front
of the buffer to the back of the queue; `poll_next` always returns the
front of the ready queue first; and a timeout flush emits exactly the
stalled pending buffer, only when the queue is empty. -/
theorem c8_fifo_order :
    (∀ (bytes : List Nat) (st : ReaderState),
      (feed_bytes bytes st).ready.flatten ++ (feed_bytes bytes st).buffer =
        st.ready.flatten ++ st.buffer ++ bytes) ∧
    (∀ (fuel : Nat) (buf : List Nat) (acc : List (List Nat)) (len : Nat),
      try_extract_event buf = some len →
      extract_loop (fuel + 1) buf acc =
        extract_loop fuel (buf.drop len) (acc ++ [buf.take len])) ∧
    (∀ (st : ReaderState) (e : List Nat) (rest : List (List Nat)),
      st.ready = e :: rest →
      poll_next_step st = (some e, ⟨st.buffer, rest, st.last_byte_age_ms⟩)) ∧
    (∀ st : ReaderState, st.ready = [] → st.buffer ≠ [] →
      should_flush_pending st = true →
      poll_next_step st = (some st.buffer, ⟨[], [], st.last_byte_age_ms⟩)) := by
  refine ⟨fun bytes st => feed_bytes_join bytes st, ?_, ?_, ?_⟩
  · intro fuel buf acc len h
    simp only [extract_loop, h]
  · intro st e rest h
    cases st with
    | mk buffer ready age =>
      simp only at h
      subst h
      rfl
  · intro st h1 h2 h3
    cases st with
    | mk buffer ready age =>
      simp only at h1 h3
      subst h1
      simp only [poll_next_step]
      rw [if_pos ⟨h2, h3⟩]

/-- Witness for C8: the queue front, extraction step and flush clauses
applied to concrete states. -/
theorem c8_fifo_order_witness :
    poll_next_step ⟨[0x1B], [[0x41]], some 0⟩ =
      (some [0x41], ⟨[0x1B], [], some 0⟩) ∧
    extract_loop 1 [0x41, 0x42] [] =
      extract_loop 0 ([0x41, 0x42].drop 1) ([] ++ [[0x41, 0x42].take 1]) ∧
    poll_next_step ⟨[0x1B], [], some 35⟩ =
      (some [0x1B], ⟨[], [], some 35⟩) :=
  ⟨c8_fifo_order.2.2.1 ⟨[0x1B], [[0x41]], some 0⟩ [0x41] [] rfl,
   c8_fifo_order.2.1 0 [0x41, 0x42] [] 1 (by decide),
   c8_fifo_order.2.2.2 ⟨[0x1B], [], some 35⟩ rfl (by decide) (by decide)⟩

/-- Claim C10: decoding is total — `interpret_bytes` returns none on
the empty span, it returns none exactly when every one of the five
interpretation families declines, and `GuessInfo::from_bytes` maps
every such none to the fixed Unknown record. -/
theorem c10_decoder_total :
    interpret_bytes [] = none ∧
    (∀ bytes : List Nat, interpret_bytes bytes = none ↔
      interpret_csi_sequence bytes = none ∧
      interpret_ss3_sequence bytes = none ∧
      interpret_alt_sequence bytes = none ∧
      interpret_single_byte bytes = none ∧
      interpret_utf8_char bytes = none) ∧
    (∀ bytes : List Nat, interpret_bytes bytes = none →
      GuessInfo.from_bytes bytes =
        ⟨"Unknown", "Unknown", "None", "Unknown", ""⟩) := by
  refine ⟨rfl, ?_, ?_⟩
  · intro bytes
    by_cases hb : bytes = []
    · subst hb
      decide
    · simp only [interpret_bytes, if_neg hb]
      cases h1 : interpret_csi_sequence bytes <;>
        cases h2 : interpret_ss3_sequence bytes <;>
          cases h3 : interpret_alt_sequence bytes <;>
            cases h4 : interpret_single_byte bytes <;>
              cases h5 : interpret_utf8_char bytes <;> simp
  · intro bytes h
    simp only [GuessInfo.from_bytes, h]

/-- Witness for C10: the Unknown clause applied to the concrete span
`[0x80]`, a lone continuation byte no family interprets. -/
theorem c10_decoder_total_witness :
    GuessInfo.from_bytes [0x80] =
      ⟨"Unknown", "Unknown", "None", "Unknown", ""⟩ :=
  c10_decoder_total.2.2 [0x80] (by decide)

end TermInput
